import Mathlib

/-!
Formal model of the goastdb indexing pipeline and governance runner.

The definitions below are shallow embeddings of the Go source of the
repository (package `astdb` in `cmd/goastdb`, and package `governance`).
Machine integers (`int`, `int64`, `uint64`) are modelled as `Nat`/`Int`
with explicit `% 2 ^ 64` where Go overflow semantics matter; fallible
operations return `Except`/`Option`.  Effects against the filesystem and
the DuckDB engine are modelled as explicit state values and operation
traces.
-/

namespace Goastdb

/-- UTF-8 encoding of one character as natural-number byte values.
Models Go's conversion from `string` to `[]byte` as performed by
`h.Write([]byte(s))`. -/
def charBytes (c : Char) : List Nat :=
  let n := c.toNat
  if n < 0x80 then [n]
  else if n < 0x800 then [0xC0 + n / 64, 0x80 + n % 64]
  else if n < 0x10000 then [0xE0 + n / 4096, 0x80 + (n / 64) % 64, 0x80 + n % 64]
  else [0xF0 + n / 262144, 0x80 + (n / 4096) % 64, 0x80 + (n / 64) % 64, 0x80 + n % 64]

/-- The byte sequence of a Go string (UTF-8). -/
def strBytes (s : String) : List Nat :=
  s.data.flatMap charBytes

/-- Model of Go's `strings.TrimSpace`: drop whitespace from both ends.
(`String.trim` of the Lean core is avoided only because its
implementation does not reduce inside the kernel.) -/
def trimSpace (s : String) : String :=
  ⟨((s.data.dropWhile Char.isWhitespace).reverse.dropWhile Char.isWhitespace).reverse⟩

/-- Model of Go's `strings.ToLower`. -/
def toLowerStr (s : String) : String := ⟨s.data.map Char.toLower⟩

/-- Lexicographic comparison of character lists by code point.  For
valid UTF-8, byte-wise comparison (Go's `<` on strings, and the
ordering DuckDB uses for TEXT) coincides with code-point order.
(Defined here, rather than through `String.lt`, so that it reduces
inside the kernel.) -/
def listLt : List Char → List Char → Bool
  | _, [] => false
  | [], _ :: _ => true
  | a :: as, b :: bs =>
    if a.toNat < b.toNat then true
    else if b.toNat < a.toNat then false
    else listLt as bs

/-- Go's `<` on strings. -/
def strLt (a b : String) : Bool := listLt a.data b.data

theorem listLt_irrefl : ∀ l : List Char, listLt l l = false
  | [] => rfl
  | a :: as => by simp [listLt, listLt_irrefl as]

theorem listLt_asymm : ∀ (a b : List Char), listLt a b = true → listLt b a = false := by
  intro a
  induction a with
  | nil =>
    intro b h
    cases b with
    | nil => simp [listLt] at h
    | cons y ys => rfl
  | cons x xs ih =>
    intro b h
    cases b with
    | nil => simp [listLt] at h
    | cons y ys =>
      by_cases h1 : x.toNat < y.toNat
      · have h2 : ¬ y.toNat < x.toNat := by omega
        simp [listLt, h1, h2]
      · by_cases h2 : y.toNat < x.toNat
        · simp [listLt, h1, h2] at h
        · simp [listLt, h1, h2] at h ⊢
          exact ih ys h

theorem listLt_trans :
    ∀ (a b c : List Char), listLt a b = true → listLt b c = true → listLt a c = true := by
  intro a
  induction a with
  | nil =>
    intro b c hab hbc
    cases b with
    | nil => simp [listLt] at hab
    | cons y ys =>
      cases c with
      | nil => simp [listLt] at hbc
      | cons z zs => rfl
  | cons x xs ih =>
    intro b c hab hbc
    cases b with
    | nil => simp [listLt] at hab
    | cons y ys =>
      cases c with
      | nil => simp [listLt] at hbc
      | cons z zs =>
        by_cases h1 : x.toNat < y.toNat <;> by_cases h2 : y.toNat < z.toNat
        · simp [listLt, show x.toNat < z.toNat from by omega]
        · by_cases h3 : z.toNat < y.toNat
          · simp [listLt, h2, h3] at hbc
          · simp [listLt, h2, h3] at hbc
            simp [listLt, show x.toNat < z.toNat from by omega]
        · by_cases h3 : y.toNat < x.toNat
          · simp [listLt, h1, h3] at hab
          · simp [listLt, h1, h3] at hab
            simp [listLt, show x.toNat < z.toNat from by omega]
        · by_cases h3 : y.toNat < x.toNat
          · simp [listLt, h1, h3] at hab
          · by_cases h4 : z.toNat < y.toNat
            · simp [listLt, h2, h4] at hbc
            · simp [listLt, h1, h3] at hab
              simp [listLt, h2, h4] at hbc
              simp [listLt, show ¬ x.toNat < z.toNat from by omega,
                show ¬ z.toNat < x.toNat from by omega]
              exact ih ys zs hab hbc

theorem listLt_total :
    ∀ (a b : List Char), a ≠ b → listLt a b = true ∨ listLt b a = true := by
  intro a
  induction a with
  | nil =>
    intro b hne
    cases b with
    | nil => exact absurd rfl hne
    | cons y ys => exact Or.inl rfl
  | cons x xs ih =>
    intro b hne
    cases b with
    | nil => exact Or.inr rfl
    | cons y ys =>
      by_cases h1 : x.toNat < y.toNat
      · exact Or.inl (by simp [listLt, h1])
      · by_cases h2 : y.toNat < x.toNat
        · exact Or.inr (by simp [listLt, h2])
        · have hval : x.val = y.val := UInt32.ext (by
            have hn : x.toNat = y.toNat := by omega
            exact hn)
          have hxy : x = y := Char.ext hval
          subst hxy
          have hne' : xs ≠ ys := fun h => hne (by rw [h])
          rcases ih ys hne' with h | h
          · exact Or.inl (by simp [listLt, h1, h2, h])
          · exact Or.inr (by simp [listLt, h1, h2, h])

theorem strLt_irrefl (a : String) : strLt a a = false := listLt_irrefl a.data

theorem strLt_asymm (a b : String) (h : strLt a b = true) : strLt b a = false :=
  listLt_asymm a.data b.data h

theorem strLt_trans (a b c : String) (hab : strLt a b = true) (hbc : strLt b c = true) :
    strLt a c = true :=
  listLt_trans a.data b.data c.data hab hbc

theorem strLt_total (a b : String) (h : a ≠ b) : strLt a b = true ∨ strLt b a = true :=
  listLt_total a.data b.data (fun hd => h (by
    cases a
    cases b
    exact congrArg String.mk hd))

/-- The FNV-1a 64-bit prime, as in Go's `hash/fnv`. -/
def fnvPrime64 : Nat := 1099511628211

/-- The FNV-1a 64-bit offset basis, as in Go's `hash/fnv`. -/
def fnvOffset64 : Nat := 14695981039346656037

/-- One byte step of FNV-1a: xor the byte in, multiply by the prime,
modulo 2^64 (Go `uint64` overflow). -/
def fnvStep (h b : Nat) : Nat := ((h ^^^ b) * fnvPrime64) % 2 ^ 64

/-- Model of `hash.Hash64.Write` for `fnv.New64a()`: feed a byte list
through the running state. -/
def fnvWrite (h : Nat) (bs : List Nat) : Nat := bs.foldl fnvStep h

/-- Lowercase hexadecimal rendering of a natural number, as produced by
Go's `fmt.Sprintf("%x", u)` for `uint64` (no zero padding, `"0"` for 0). -/
def toHexString (n : Nat) : String := (Nat.toDigits 16 n).asString

/-- In-memory file metadata captured by the scanner
(`fileMeta` in the source). -/
structure fileMeta where
  RelPath : String
  Size : Int
  ModUnixNano : Int
deriving Repr, DecidableEq

/-- One record's contribution to the fingerprint hash: the six `h.Write`
calls of the loop body of `sourceFingerprint` in the source
(relpath, 0x00, decimal size, 0x00, decimal modtime, 0x00). -/
def metaWrite (h : Nat) (f : fileMeta) : Nat :=
  let h := fnvWrite h (strBytes f.RelPath)
  let h := fnvWrite h [0]
  let h := fnvWrite h (strBytes (toString f.Size))
  let h := fnvWrite h [0]
  let h := fnvWrite h (strBytes (toString f.ModUnixNano))
  fnvWrite h [0]

/-- Model of `sourceFingerprint` from the source: FNV-1a over the
records in list order, rendered as lowercase hex. -/
def sourceFingerprint (files : List fileMeta) : String :=
  toHexString (files.foldl metaWrite fnvOffset64)

/-- The concatenated byte string of one record, as the spec words it:
`relpath || 0x00 || ascii(size) || 0x00 || ascii(modtime_ns) || 0x00`. -/
def metaBytes (f : fileMeta) : List Nat :=
  strBytes f.RelPath ++ [0] ++ strBytes (toString f.Size) ++ [0] ++
    strBytes (toString f.ModUnixNano) ++ [0]

/-- Spec-side definition of the fingerprint (for the refinement claim C6):
the FNV-1a hash of the concatenation of all per-record byte strings,
rendered as lowercase hexadecimal. -/
def fingerprintSpec (files : List fileMeta) : String :=
  toHexString (fnvWrite fnvOffset64 (files.map metaBytes).flatten)

theorem fnvWrite_append (h : Nat) (a b : List Nat) :
    fnvWrite h (a ++ b) = fnvWrite (fnvWrite h a) b :=
  List.foldl_append fnvStep h a b

theorem metaWrite_eq (h : Nat) (f : fileMeta) : metaWrite h f = fnvWrite h (metaBytes f) := by
  simp [metaWrite, metaBytes, fnvWrite, List.foldl_append]

theorem foldl_metaWrite_eq (files : List fileMeta) :
    ∀ h : Nat, files.foldl metaWrite h = fnvWrite h (files.map metaBytes).flatten := by
  induction files with
  | nil => intro h; rfl
  | cons f fs ih =>
    intro h
    simp only [List.foldl_cons, List.map_cons, List.flatten_cons, fnvWrite_append, ih,
      metaWrite_eq]

/-- Sanity: FNV-1a 64 of the byte string "a" is the standard test vector. -/
example : fnvWrite fnvOffset64 (strBytes "a") = 0xaf63dc4c8601ec8c := by decide

/-- Sanity: FNV-1a 64 of the empty input is the offset basis. -/
example : fnvWrite fnvOffset64 [] = 0xcbf29ce484222325 := by decide

/-- C6: for every list of FileMeta records, the fingerprint equals the
64-bit FNV-1a hash of the concatenation, per record, of relpath, a 0x00
byte, the ASCII decimal of size, a 0x00 byte, the ASCII decimal of
modtime_ns, and a 0x00 byte, rendered as lowercase hexadecimal; the
function is total, and two equal lists always produce equal
fingerprints. -/
theorem claim_C6 (files : List fileMeta) :
    sourceFingerprint files = fingerprintSpec files ∧
    ∀ gs : List fileMeta, files = gs → sourceFingerprint files = sourceFingerprint gs := by
  refine ⟨?_, ?_⟩
  · unfold sourceFingerprint fingerprintSpec
    rw [foldl_metaWrite_eq]
  · intro gs hgs
    rw [hgs]

/-- Witness for C6 at a concrete record list. -/
theorem claim_C6_witness :
    sourceFingerprint [⟨"main.go", 30, 100⟩] = sourceFingerprint [⟨"main.go", 30, 100⟩] :=
  (claim_C6 [⟨"main.go", 30, 100⟩]).2 [⟨"main.go", 30, 100⟩] rfl

/-- Persisted per-file row (`fileRow` in the source).  Go `int64` fields
are modelled as `Int`. -/
structure fileRow where
  ID : Int
  Path : String
  PkgName : String
  ParseError : String
  Bytes : Int
deriving Repr, DecidableEq

/-- Persisted per-AST-node row (`nodeRow` in the source).  `Ordinal` and
`ParentOrdinal` are Go `int` values that the walker only ever sets to
non-negative counters, so they are modelled as `Nat`; the position
fields (`Pos`..`EndOffset`, Go `int`) are modelled as `Int` since
offsets can be `-1`. -/
structure nodeRow where
  FileID : Int
  Ordinal : Nat
  ParentOrdinal : Nat
  HasParent : Bool
  Kind : String
  NodeText : String
  Pos : Int
  End : Int
  StartLine : Int
  StartCol : Int
  EndLine : Int
  EndCol : Int
  StartOffset : Int
  EndOffset : Int
deriving Repr, DecidableEq

/-- The compiled-in schema version constant (`schemaVersion = "1"`). -/
def schemaVersion : String := "1"

/-- Result of inspecting an existing DB (`dbState` in the source; the
source field `Exists` is called `DBExists` here because `Exists` is
taken by the logic). -/
structure dbState where
  DBExists : Bool
  SchemaVersion : String
  SourceFingerprint : String
  FilesCount : Nat
  NodesCount : Nat
deriving Repr, DecidableEq

/-- The zero value `dbState{}` of Go. -/
def dbStateZero : dbState := ⟨false, "", "", 0, 0⟩

/-- Model of the on-disk DuckDB file contents as far as the inspector
reads them: each of the three core tables is `none` when the
corresponding read (`SELECT COUNT(*)` or the `run_meta` scan) fails,
and `some rows` when readable. -/
structure DuckFile where
  filesTable : Option (List fileRow)
  nodesTable : Option (List nodeRow)
  runMetaTable : Option (List (String × String))
deriving Repr, DecidableEq

/-- One iteration of the `run_meta` row loop in `inspectDuckDB`: record
the value under the `schema_version` and `source_fingerprint` keys. -/
def applyMetaRow (st : dbState) (kv : String × String) : dbState :=
  let st := if kv.1 = "schema_version" then { st with SchemaVersion := kv.2 } else st
  if kv.1 = "source_fingerprint" then { st with SourceFingerprint := kv.2 } else st

/-- Model of `inspectDuckDB`: `none` stands for an absent DB file
(`os.Stat` reports not-exist); for a present file the three reads are
attempted in order and any failure returns the state accumulated so
far (with a `nil` error, exactly as the source does). -/
def inspectDuckDB (file : Option DuckFile) : dbState :=
  match file with
  | none => dbStateZero
  | some f =>
    let state := { dbStateZero with DBExists := true }
    match f.filesTable with
    | none => state
    | some files =>
    let state := { state with FilesCount := files.length }
    match f.nodesTable with
    | none => state
    | some nodes =>
    let state := { state with NodesCount := nodes.length }
    match f.runMetaTable with
    | none => state
    | some kvs => kvs.foldl applyMetaRow state

/-- The rebuild predicate of `Run`:
`opts.ForceRebuild || !opts.Reuse || !state.Exists || state.SchemaVersion != schemaVersion || state.SourceFingerprint != fingerprint`. -/
def rebuildDecision (forceRebuild reuse : Bool) (state : dbState) (fingerprint : String) : Bool :=
  forceRebuild || !reuse || !state.DBExists || state.SchemaVersion != schemaVersion ||
    state.SourceFingerprint != fingerprint

/-- The `reason` computation of `Run`: a chain of independent `if`
statements that each overwrite the previous value, exactly as in the
source. -/
def syncReason (forceRebuild reuse : Bool) (state : dbState) (fingerprint : String) : String :=
  let reason := "up-to-date"
  let reason := if forceRebuild then "force rebuild enabled" else reason
  let reason := if !reuse then "reuse disabled" else reason
  let reason := if !state.DBExists then "database missing" else reason
  let reason := if state.DBExists && state.SchemaVersion != schemaVersion then
    "schema changed" else reason
  if state.DBExists && state.SourceFingerprint != "" && state.SourceFingerprint != fingerprint then
    "source changed" else reason

/-- Spec-side reason (for comparison in claim C3): the first applicable
predicate in the order source changed → schema changed → missing →
reuse disabled → force flag, i.e. the order of the source's `if` chain
reversed. -/
def syncReasonSpec (forceRebuild reuse : Bool) (state : dbState) (fingerprint : String) : String :=
  if state.DBExists && state.SourceFingerprint != "" && state.SourceFingerprint != fingerprint then
    "source changed"
  else if state.DBExists && state.SchemaVersion != schemaVersion then "schema changed"
  else if !state.DBExists then "database missing"
  else if !reuse then "reuse disabled"
  else if forceRebuild then "force rebuild enabled"
  else "up-to-date"

/-- C2 counterexample: a DB file that is present but whose `files` table
cannot be read yields a record with `exists=true` (the claim says the
inspector returns `exists=false` in this case). -/
theorem claim_C2_cex :
    (inspectDuckDB (some ⟨none, none, none⟩)).DBExists = true := rfl

/-- C2 amended: absence of the DB file yields the zero record with
`exists=false`, but a present file with any unreadable core table
yields a record with `exists=true` whose `schema_version` and
`source_fingerprint` are empty; such a record still forces rebuild in
the reuse decision (because the empty schema version differs from the
compiled-in one), so the DB is treated as stale, though not as
nonexistent. -/
theorem claim_C2_amended (f : DuckFile)
    (h : f.filesTable = none ∨ f.nodesTable = none ∨ f.runMetaTable = none) :
    inspectDuckDB none = dbStateZero ∧
    (inspectDuckDB (some f)).DBExists = true ∧
    (inspectDuckDB (some f)).SchemaVersion = "" ∧
    (inspectDuckDB (some f)).SourceFingerprint = "" ∧
    ∀ (force reuse : Bool) (fp : String),
      rebuildDecision force reuse (inspectDuckDB (some f)) fp = true := by
  obtain ⟨ft, nt, mt⟩ := f
  refine ⟨rfl, ?_⟩
  have hstate : (inspectDuckDB (some ⟨ft, nt, mt⟩)).DBExists = true ∧
      (inspectDuckDB (some ⟨ft, nt, mt⟩)).SchemaVersion = "" ∧
      (inspectDuckDB (some ⟨ft, nt, mt⟩)).SourceFingerprint = "" := by
    cases ft with
    | none => simp [inspectDuckDB, dbStateZero]
    | some fl =>
      cases nt with
      | none => simp [inspectDuckDB, dbStateZero]
      | some nl =>
        cases mt with
        | none => simp [inspectDuckDB, dbStateZero]
        | some ml =>
          exfalso
          rcases h with h | h | h <;> simp at h
  refine ⟨hstate.1, hstate.2.1, hstate.2.2, ?_⟩
  intro force reuse fp
  simp [rebuildDecision, hstate.2.1, schemaVersion]

/-- Witness for C2 at a concrete DB file whose `nodes` table is
unreadable. -/
theorem claim_C2_witness :
    rebuildDecision false true (inspectDuckDB (some ⟨some [], none, none⟩)) "abc" = true :=
  (claim_C2_amended ⟨some [], none, none⟩ (Or.inr (Or.inl rfl))).2.2.2.2 false true "abc"

/-- C3 counterexample: with the force flag set and a present DB whose
stored fingerprint is non-empty and differs from the current one, the
reason is "source changed", not the force-flag one-liner the claim
requires. -/
theorem claim_C3_cex :
    syncReason true true ⟨true, "1", "aaa", 1, 1⟩ "bbb" = "source changed" ∧
    syncReason true true ⟨true, "1", "aaa", 1, 1⟩ "bbb" ≠ "force rebuild enabled" := by
  refine ⟨rfl, ?_⟩
  intro h
  simp [syncReason] at h

/-- C3 amended: the reason field is the one-liner of the LAST applicable
predicate in the order force flag, reuse disabled, missing, schema
changed, source changed (each later `if` overwrites the earlier ones),
equivalently the first applicable predicate in the reversed order; it
is "up-to-date" exactly when no predicate applies. -/
theorem claim_C3_amended (force reuse : Bool) (state : dbState) (fp : String) :
    syncReason force reuse state fp = syncReasonSpec force reuse state fp ∧
    (syncReason force reuse state fp = "up-to-date" ↔
      force = false ∧ reuse = true ∧ state.DBExists = true ∧
      state.SchemaVersion = schemaVersion ∧
      (state.SourceFingerprint = "" ∨ state.SourceFingerprint = fp)) := by
  obtain ⟨ex, sv, sf, fc, nc⟩ := state
  constructor
  · cases ex <;> cases force <;> cases reuse <;>
      by_cases h1 : sv = schemaVersion <;> by_cases h2 : sf = "" <;> by_cases h3 : sf = fp <;>
      simp [syncReason, syncReasonSpec, h1, h2, h3]
  · cases ex <;> cases force <;> cases reuse <;>
      by_cases h1 : sv = schemaVersion <;> by_cases h2 : sf = "" <;> by_cases h3 : sf = fp <;>
      simp [syncReason, h1, h2, h3]

/-- Pre-resolved source span of one AST node: the values that
`fset.PositionFor`/`tf.Offset` return for the node's `Pos()`/`End()`
(the token.FileSet arithmetic itself is outside the model; offsets are
`-1` when the file lookup fails, as in the source). -/
structure Span where
  Pos : Int
  End : Int
  StartLine : Int
  StartCol : Int
  EndLine : Int
  EndCol : Int
  StartOffset : Int
  EndOffset : Int
deriving Repr, DecidableEq

/-- The node-variant information `extractNodeText` and the kind label
dispatch on: `*ast.Ident` with its name, `*ast.BasicLit` with its raw
lexeme, `*ast.ImportSpec` with its optional path literal, and any other
node with its reflective type name. -/
inductive AstData where
  | ident (name : String)
  | basicLit (value : String)
  | importSpec (path : Option String)
  | other (kind : String)
deriving Repr, DecidableEq

/-- A Go AST as the walker sees it: a node variant, its span, and its
children in `ast.Inspect` visiting order. -/
inductive GoAst where
  | mk (d : AstData) (sp : Span) (children : List GoAst)

/-- Model of `fmt.Sprintf("%T", n)`: the reflective type name of the
node. -/
def kindLabel : AstData → String
  | .ident _ => "*ast.Ident"
  | .basicLit _ => "*ast.BasicLit"
  | .importSpec _ => "*ast.ImportSpec"
  | .other k => k

/-- Model of `extractNodeText` from the source: identifier name, basic
literal lexeme, import path literal (when present), empty otherwise. -/
def extractNodeText : AstData → String
  | .ident name => name
  | .basicLit value => value
  | .importSpec (some p) => p
  | .importSpec none => ""
  | .other _ => ""

/-- The row the walker appends for one visited node. -/
def nodeRowOf (fileID : Int) (ord parentOrd : Nat) (hasParent : Bool)
    (d : AstData) (sp : Span) : nodeRow :=
  { FileID := fileID, Ordinal := ord, ParentOrdinal := parentOrd, HasParent := hasParent,
    Kind := kindLabel d, NodeText := extractNodeText d,
    Pos := sp.Pos, End := sp.End, StartLine := sp.StartLine, StartCol := sp.StartCol,
    EndLine := sp.EndLine, EndCol := sp.EndCol,
    StartOffset := sp.StartOffset, EndOffset := sp.EndOffset }

/-- Mutable state of `walkNodes`: accumulated rows, the stack of parent
ordinals, and the ordinal counter. -/
structure WalkSt where
  rows : List nodeRow
  stack : List Nat
  ord : Nat

/-- The body of the `ast.Inspect` callback in `walkNodes`: `none` is the
`nil` post-order notification (pop the stack if non-empty); a node
event increments the counter, reads the parent from the stack top, and
appends a row.  The Go slice-end stack top is the list head here. -/
def walkStep (fileID : Int) (st : WalkSt) (ev : Option (AstData × Span)) : WalkSt :=
  match ev with
  | none =>
    if st.stack.length > 0 then { st with stack := st.stack.tail } else st
  | some (d, sp) =>
    let ord := st.ord + 1
    let parentOrd := match st.stack with | [] => 0 | p :: _ => p
    let hasParent := match st.stack with | [] => false | _ :: _ => true
    { rows := st.rows ++ [nodeRowOf fileID ord parentOrd hasParent d sp],
      stack := ord :: st.stack,
      ord := ord }

mutual
/-- Event stream of `ast.Inspect`: the callback sees the node, then the
events of its children, then `nil`. -/
def inspectEvents : GoAst → List (Option (AstData × Span))
  | .mk d sp cs => some (d, sp) :: (inspectEventsList cs ++ [none])

/-- Concatenated event streams of a child list. -/
def inspectEventsList : List GoAst → List (Option (AstData × Span))
  | [] => []
  | c :: cs => inspectEvents c ++ inspectEventsList cs
end

/-- Model of `walkNodes`: fold the callback over the inspect events,
starting from empty rows, empty stack, counter 0, and return the rows. -/
def walkNodes (fileID : Int) (file : GoAst) : List nodeRow :=
  ((inspectEvents file).foldl (walkStep fileID) ⟨[], [], 0⟩).rows

mutual
/-- Number of nodes of a tree. -/
def astSize : GoAst → Nat
  | .mk _ _ cs => 1 + astSizeList cs

/-- Number of nodes of a forest. -/
def astSizeList : List GoAst → Nat
  | [] => 0
  | c :: cs => astSize c + astSizeList cs
end

mutual
/-- Closed form of the walker's output on a subtree: the root gets
ordinal `ord0 + 1` and the given parent; its children get the root as
parent and consecutive ordinal blocks. -/
def preRows (fileID : Int) (parent : Option Nat) (ord0 : Nat) : GoAst → List nodeRow
  | .mk d sp cs =>
    nodeRowOf fileID (ord0 + 1) (parent.getD 0) parent.isSome d sp ::
      preRowsList fileID (some (ord0 + 1)) (ord0 + 1) cs

/-- Closed form of the walker's output on a forest. -/
def preRowsList (fileID : Int) (parent : Option Nat) (ord0 : Nat) : List GoAst → List nodeRow
  | [] => []
  | c :: cs => preRows fileID parent ord0 c ++ preRowsList fileID parent (ord0 + astSize c) cs
end

theorem walkStep_some (fileID : Int) (st : WalkSt) (d : AstData) (sp : Span) :
    walkStep fileID st (some (d, sp)) =
      ⟨st.rows ++ [nodeRowOf fileID (st.ord + 1) (st.stack.head?.getD 0) st.stack.head?.isSome d sp],
        (st.ord + 1) :: st.stack, st.ord + 1⟩ := by
  obtain ⟨rows, stack, ord⟩ := st
  cases stack <;> rfl

mutual
theorem foldl_inspectEvents (fileID : Int) (t : GoAst) (rows : List nodeRow)
    (stack : List Nat) (ord : Nat) :
    (inspectEvents t).foldl (walkStep fileID) ⟨rows, stack, ord⟩ =
      ⟨rows ++ preRows fileID stack.head? ord t, stack, ord + astSize t⟩ := by
  match t with
  | .mk d sp cs =>
    rw [inspectEvents, List.foldl_cons, walkStep_some, List.foldl_append,
      foldl_inspectEventsList fileID cs]
    show walkStep fileID _ none = _
    simp only [walkStep, List.head?_cons, List.length_cons, List.tail_cons,
      Option.getD_some, Option.isSome_some, preRows, astSize]
    rw [if_pos (Nat.succ_pos _)]
    simp [List.append_assoc, Nat.add_assoc, WalkSt.mk.injEq]

theorem foldl_inspectEventsList (fileID : Int) (cs : List GoAst) (rows : List nodeRow)
    (stack : List Nat) (ord : Nat) :
    (inspectEventsList cs).foldl (walkStep fileID) ⟨rows, stack, ord⟩ =
      ⟨rows ++ preRowsList fileID stack.head? ord cs, stack, ord + astSizeList cs⟩ := by
  match cs with
  | [] => simp [inspectEventsList, preRowsList, astSizeList]
  | c :: cs' =>
    rw [inspectEventsList, List.foldl_append, foldl_inspectEvents fileID c,
      foldl_inspectEventsList fileID cs']
    simp only [preRowsList, astSizeList]
    simp [List.append_assoc, Nat.add_assoc, WalkSt.mk.injEq]
end

theorem walkNodes_eq (fileID : Int) (t : GoAst) :
    walkNodes fileID t = preRows fileID none 0 t := by
  unfold walkNodes
  rw [foldl_inspectEvents]
  simp

mutual
theorem preRows_ordinals (fileID : Int) (parent : Option Nat) (ord0 : Nat) (t : GoAst) :
    (preRows fileID parent ord0 t).map nodeRow.Ordinal = List.range' (ord0 + 1) (astSize t) := by
  match t with
  | .mk d sp cs =>
    rw [preRows, List.map_cons, preRowsList_ordinals, astSize,
      Nat.add_comm 1 (astSizeList cs), List.range'_succ]
    simp [nodeRowOf]

theorem preRowsList_ordinals (fileID : Int) (parent : Option Nat) (ord0 : Nat)
    (cs : List GoAst) :
    (preRowsList fileID parent ord0 cs).map nodeRow.Ordinal =
      List.range' (ord0 + 1) (astSizeList cs) := by
  match cs with
  | [] => rfl
  | c :: cs' =>
    rw [preRowsList, List.map_append, preRows_ordinals, preRowsList_ordinals, astSizeList]
    have h := List.range'_append (ord0 + 1) (astSize c) (astSizeList cs') 1
    rw [one_mul] at h
    rw [show ord0 + astSize c + 1 = ord0 + 1 + astSize c by omega, h,
      Nat.add_comm (astSizeList cs') (astSize c)]
end

mutual
theorem preRows_parentLt (fileID : Int) (parent : Option Nat) (ord0 : Nat) (t : GoAst)
    (hp : ∀ q, parent = some q → q ≤ ord0) :
    ∀ r ∈ preRows fileID parent ord0 t, r.HasParent = true → r.ParentOrdinal < r.Ordinal := by
  match t with
  | .mk d sp cs =>
    intro r hr hhp
    rw [preRows] at hr
    rcases List.mem_cons.mp hr with h | h
    · subst h
      cases hparent : parent with
      | none => rw [hparent] at hhp; simp [nodeRowOf] at hhp
      | some q =>
        have hq := hp q hparent
        simp [nodeRowOf, hparent]
        omega
    · exact preRowsList_parentLt fileID (some (ord0 + 1)) (ord0 + 1) cs
        (by intro q hq; rw [Option.some.injEq] at hq; omega) r h hhp

theorem preRowsList_parentLt (fileID : Int) (parent : Option Nat) (ord0 : Nat)
    (cs : List GoAst) (hp : ∀ q, parent = some q → q ≤ ord0) :
    ∀ r ∈ preRowsList fileID parent ord0 cs, r.HasParent = true →
      r.ParentOrdinal < r.Ordinal := by
  match cs with
  | [] => intro r hr; rw [preRowsList] at hr; exact absurd hr (List.not_mem_nil r)
  | c :: cs' =>
    intro r hr hhp
    rw [preRowsList] at hr
    rcases List.mem_append.mp hr with h | h
    · exact preRows_parentLt fileID parent ord0 c hp r h hhp
    · exact preRowsList_parentLt fileID parent (ord0 + astSize c) cs'
        (by intro q hq; have := hp q hq; omega) r h hhp
end

/-- Sanity: the walker on a three-node tree yields ordinals 1, 2, 3 in
pre-order with the root as parent of both children. -/
example :
    (walkNodes 7 (.mk (.other "*ast.File") ⟨0, 0, 0, 0, 0, 0, 0, 0⟩
      [.mk (.ident "main") ⟨0, 0, 0, 0, 0, 0, 0, 0⟩ [],
       .mk (.basicLit "1") ⟨0, 0, 0, 0, 0, 0, 0, 0⟩ []])).map
      (fun r => (r.Ordinal, r.ParentOrdinal, r.HasParent)) =
      [(1, 0, false), (2, 1, true), (3, 1, true)] := by
  decide

/-- C5: for every parsed file, the emitted node rows carry ordinals
exactly `1..N` with no gaps, assigned in pre-order (the i-th emitted
row has ordinal `i`); the root node is emitted first with ordinal 1 and
no parent (the NULL parent ordinal); and every row that has a parent
ordinal has it strictly below its own ordinal. -/
theorem claim_C5 (fileID : Int) (t : GoAst) :
    (walkNodes fileID t).map nodeRow.Ordinal = List.range' 1 (walkNodes fileID t).length ∧
    (∃ r rest, walkNodes fileID t = r :: rest ∧ r.Ordinal = 1 ∧ r.HasParent = false) ∧
    ∀ r ∈ walkNodes fileID t, r.HasParent = true → r.ParentOrdinal < r.Ordinal := by
  have hord := preRows_ordinals fileID none 0 t
  have hlen : (walkNodes fileID t).length = astSize t := by
    rw [walkNodes_eq]
    calc (preRows fileID none 0 t).length
        = ((preRows fileID none 0 t).map nodeRow.Ordinal).length := (List.length_map _ _).symm
      _ = astSize t := by rw [hord]; simp
  refine ⟨?_, ?_, ?_⟩
  · rw [hlen, walkNodes_eq]
    simpa using hord
  · rw [walkNodes_eq]
    match t with
    | .mk d sp cs => exact ⟨_, _, rfl, rfl, rfl⟩
  · rw [walkNodes_eq]
    exact preRows_parentLt fileID none 0 t (fun q hq => nomatch hq)

/-- C7: the node text recorded by the linearizer is the identifier's
name for an identifier node, the raw lexeme for a basic-literal node,
the raw import-path literal for an import-specification node, and
empty for every other node kind (including an import spec with no path
literal); every emitted row's `node_text` is exactly this extraction. -/
theorem claim_C7 :
    (∀ name : String, extractNodeText (.ident name) = name) ∧
    (∀ value : String, extractNodeText (.basicLit value) = value) ∧
    (∀ path : String, extractNodeText (.importSpec (some path)) = path) ∧
    (∀ kind : String, extractNodeText (.other kind) = "") ∧
    extractNodeText (.importSpec none) = "" ∧
    ∀ (fileID : Int) (ord parentOrd : Nat) (hasParent : Bool) (d : AstData) (sp : Span),
      (nodeRowOf fileID ord parentOrd hasParent d sp).NodeText = extractNodeText d :=
  ⟨fun _ => rfl, fun _ => rfl, fun _ => rfl, fun _ => rfl, rfl, fun _ _ _ _ _ _ => rfl⟩

/-- One worker-pool output (`parseResult` in the source). -/
structure parseResult where
  File : fileRow
  Rows : List nodeRow
deriving Repr, DecidableEq

/-- The strict comparator handed to `sort.Slice` for file rows:
`files[i].Path < files[j].Path`. -/
def fileLess (a b : fileRow) : Bool := strLt a.Path b.Path

/-- The strict comparator handed to `sort.Slice` for node rows: ordinal
when the file IDs coincide, file ID otherwise. -/
def nodeLess (a b : nodeRow) : Bool :=
  if a.FileID = b.FileID then decide (a.Ordinal < b.Ordinal) else decide (a.FileID < b.FileID)

/-- The non-strict closure of the strict file comparator: `a` may come
before `b` exactly when the comparator does not order `b` strictly
before `a`.  A correct sort for `sort.Slice`'s strict comparator is
sorted with respect to this closure. -/
def filePathLe (a b : fileRow) : Prop := (!fileLess b a) = true

instance : DecidableRel filePathLe :=
  fun _ _ => inferInstanceAs (Decidable (_ = true))

/-- The non-strict closure of the strict node comparator. -/
def nodeKeyLe (a b : nodeRow) : Prop := (!nodeLess b a) = true

instance : DecidableRel nodeKeyLe :=
  fun _ _ => inferInstanceAs (Decidable (_ = true))

/-- Model of `parseFiles`: the pool's per-file results arrive in an
arbitrary interleaving (`results` is that arrival order); the collector
counts parse errors and concatenates rows, then sorts.  `sort.Slice`
with a strict comparator sorts ascending; it is modelled by a sort
with respect to the non-strict closure of that comparator. -/
def parseFiles (results : List parseResult) : List fileRow × List nodeRow × Nat :=
  let files := results.map parseResult.File
  let nodes := (results.map parseResult.Rows).flatten
  let parseErrors := (results.filter (fun r => r.File.ParseError != "")).length
  (files.insertionSort filePathLe, nodes.insertionSort nodeKeyLe, parseErrors)

theorem fileLe_iff (a b : fileRow) : filePathLe a b ↔ strLt b.Path a.Path = false := by
  simp [filePathLe, fileLess]

theorem nodeLe_iff (a b : nodeRow) :
    nodeKeyLe a b ↔
      a.FileID < b.FileID ∨ (a.FileID = b.FileID ∧ a.Ordinal ≤ b.Ordinal) := by
  unfold nodeKeyLe
  by_cases hf : b.FileID = a.FileID <;> simp [nodeLess, hf, not_lt] <;> omega

instance : IsTotal fileRow filePathLe :=
  ⟨fun a b => by
    by_cases h : strLt b.Path a.Path = true
    · exact Or.inr ((fileLe_iff b a).mpr (strLt_asymm _ _ h))
    · exact Or.inl ((fileLe_iff a b).mpr (by simpa using h))⟩

instance : IsTrans fileRow filePathLe :=
  ⟨fun a b c hab hbc => by
    rw [fileLe_iff] at *
    by_cases hca : strLt c.Path a.Path = true
    · by_cases hcb : strLt c.Path b.Path = true
      · rw [hcb] at hbc; exact absurd hbc (by simp)
      · rcases strLt_total b.Path c.Path (fun he => by
          rw [he] at hab; rw [hab] at hca; simp at hca) with h | h
        · have htr := strLt_trans _ _ _ h hca
          rw [htr] at hab; exact absurd hab (by simp)
        · exact absurd h hcb
    · simpa using hca⟩

instance : IsTotal nodeRow nodeKeyLe :=
  ⟨fun a b => by
    by_cases h : a.FileID < b.FileID ∨ (a.FileID = b.FileID ∧ a.Ordinal ≤ b.Ordinal)
    · exact Or.inl ((nodeLe_iff a b).mpr h)
    · exact Or.inr ((nodeLe_iff b a).mpr (by omega))⟩

instance : IsTrans nodeRow nodeKeyLe :=
  ⟨fun a b c hab hbc => by
    have h1 := (nodeLe_iff a b).mp hab
    have h2 := (nodeLe_iff b c).mp hbc
    exact (nodeLe_iff a c).mpr (by omega)⟩

theorem parseFiles_files_sorted (results : List parseResult) :
    (parseFiles results).1.Pairwise filePathLe := by
  have h : ((results.map parseResult.File).insertionSort filePathLe).Pairwise filePathLe :=
    List.sorted_insertionSort filePathLe (results.map parseResult.File)
  exact h

theorem parseFiles_nodes_sorted (results : List parseResult) :
    (parseFiles results).2.1.Pairwise (fun a b =>
      a.FileID < b.FileID ∨ (a.FileID = b.FileID ∧ a.Ordinal ≤ b.Ordinal)) := by
  have h : (((results.map parseResult.Rows).flatten).insertionSort nodeKeyLe).Pairwise
      nodeKeyLe :=
    List.sorted_insertionSort nodeKeyLe ((results.map parseResult.Rows).flatten)
  exact h.imp (fun hab => (nodeLe_iff _ _).mp hab)

theorem parseFiles_deterministic (results results' : List parseResult)
    (hperm : results.Perm results')
    (hpaths : (results.map (fun r => r.File.Path)).Nodup)
    (hkeys : ((results.map parseResult.Rows).flatten.map
      (fun n => (n.FileID, n.Ordinal))).Nodup) :
    parseFiles results = parseFiles results' := by
  have hfilesperm : (results.map parseResult.File).Perm (results'.map parseResult.File) :=
    hperm.map parseResult.File
  have hnodesperm : ((results.map parseResult.Rows).flatten).Perm
      ((results'.map parseResult.Rows).flatten) :=
    (hperm.map parseResult.Rows).flatten
  have hpaths' : (results'.map (fun r => r.File.Path)).Nodup :=
    (hperm.map (fun r => r.File.Path)).nodup_iff.mp hpaths
  have hkeys' : ((results'.map parseResult.Rows).flatten.map
      (fun n => (n.FileID, n.Ordinal))).Nodup :=
    (hnodesperm.map (fun n => (n.FileID, n.Ordinal))).nodup_iff.mp hkeys
  have hfileeq : (parseFiles results).1 = (parseFiles results').1 := by
    have strict : ∀ rs : List parseResult,
        (rs.map (fun r => r.File.Path)).Nodup →
        (parseFiles rs).1.Pairwise (fun a b => strLt a.Path b.Path = true) := by
      intro rs hnd
      have hs := parseFiles_files_sorted rs
      have hnd2 : ((parseFiles rs).1.map fileRow.Path).Nodup := by
        have hp : ((parseFiles rs).1.map fileRow.Path).Perm
            (rs.map (fun r => r.File.Path)) := by
          have := (List.perm_insertionSort filePathLe
            (rs.map parseResult.File)).map fileRow.Path
          simpa [parseFiles, Function.comp] using this
        exact hp.nodup_iff.mpr hnd
      have hne : (parseFiles rs).1.Pairwise (fun a b => a.Path ≠ b.Path) :=
        List.pairwise_map.mp hnd2
      refine List.Pairwise.imp ?_ (hs.and hne)
      intro a b hab
      obtain ⟨hle, hne2⟩ := hab
      rcases strLt_total a.Path b.Path hne2 with h | h
      · exact h
      · rw [fileLe_iff] at hle
        rw [h] at hle
        exact absurd hle (by simp)
    have hp : (parseFiles results).1.Perm (parseFiles results').1 :=
      ((List.perm_insertionSort filePathLe
          (results.map parseResult.File)).trans hfilesperm).trans
        (List.perm_insertionSort filePathLe (results'.map parseResult.File)).symm
    exact @List.eq_of_perm_of_sorted fileRow (fun a b => strLt a.Path b.Path = true)
      ⟨fun a b h1 h2 => by
        have hf := strLt_asymm a.Path b.Path h1
        rw [h2] at hf
        exact absurd hf (by simp)⟩ _ _ hp
      (strict results hpaths) (strict results' hpaths')
  have hnodeeq : (parseFiles results).2.1 = (parseFiles results').2.1 := by
    have strict : ∀ rs : List parseResult,
        ((rs.map parseResult.Rows).flatten.map (fun n => (n.FileID, n.Ordinal))).Nodup →
        (parseFiles rs).2.1.Pairwise (fun a b =>
          a.FileID < b.FileID ∨ (a.FileID = b.FileID ∧ a.Ordinal < b.Ordinal)) := by
      intro rs hnd
      have hs := parseFiles_nodes_sorted rs
      have hnd2 : ((parseFiles rs).2.1.map (fun n => (n.FileID, n.Ordinal))).Nodup := by
        have hp : ((parseFiles rs).2.1.map (fun n => (n.FileID, n.Ordinal))).Perm
            ((rs.map parseResult.Rows).flatten.map (fun n => (n.FileID, n.Ordinal))) :=
          (List.perm_insertionSort nodeKeyLe
            ((rs.map parseResult.Rows).flatten)).map (fun n => (n.FileID, n.Ordinal))
        exact hp.nodup_iff.mpr hnd
      have hne : (parseFiles rs).2.1.Pairwise
          (fun a b => (a.FileID, a.Ordinal) ≠ (b.FileID, b.Ordinal)) :=
        List.pairwise_map.mp hnd2
      refine List.Pairwise.imp ?_ (hs.and hne)
      intro a b hab
      obtain ⟨hle, hne2⟩ := hab
      rcases hle with h | ⟨h1, h2⟩
      · exact Or.inl h
      · refine Or.inr ⟨h1, ?_⟩
        have hno : ¬ a.Ordinal = b.Ordinal := fun he => hne2 (by rw [h1, he])
        omega
    have hp : (parseFiles results).2.1.Perm (parseFiles results').2.1 :=
      ((List.perm_insertionSort nodeKeyLe
          ((results.map parseResult.Rows).flatten)).trans hnodesperm).trans
        (List.perm_insertionSort nodeKeyLe
          ((results'.map parseResult.Rows).flatten)).symm
    exact @List.eq_of_perm_of_sorted nodeRow
      (fun a b => a.FileID < b.FileID ∨ (a.FileID = b.FileID ∧ a.Ordinal < b.Ordinal))
      ⟨fun a b h1 h2 => by rcases h1 with h1 | ⟨h1a, h1b⟩ <;>
        rcases h2 with h2 | ⟨h2a, h2b⟩ <;> omega⟩ _ _ hp
      (strict results hkeys) (strict results' hkeys')
  have herr : (parseFiles results).2.2 = (parseFiles results').2.2 := by
    show (results.filter fun r => r.File.ParseError != "").length =
      (results'.filter fun r => r.File.ParseError != "").length
    exact (hperm.filter (fun r => r.File.ParseError != "")).length_eq
  exact Prod.ext hfileeq (Prod.ext hnodeeq herr)

/-- C8: for every ordering in which parse results arrive from the
worker pool, the row lists handed to the writer are sorted — file rows
in ascending path order (no later row's path compares strictly below
an earlier one's) and node rows in ascending (file_id, ordinal) order
— and (when paths and node keys are unique, as the scanner guarantees)
the output is the same for every arrival order. -/
theorem claim_C8 (results : List parseResult) :
    (parseFiles results).1.Pairwise (fun a b => fileLess b a = false) ∧
    (parseFiles results).2.1.Pairwise (fun a b =>
      a.FileID < b.FileID ∨ (a.FileID = b.FileID ∧ a.Ordinal ≤ b.Ordinal)) ∧
    ∀ results' : List parseResult, results.Perm results' →
      (results.map (fun r => r.File.Path)).Nodup →
      ((results.map parseResult.Rows).flatten.map (fun n => (n.FileID, n.Ordinal))).Nodup →
      parseFiles results = parseFiles results' :=
  ⟨(parseFiles_files_sorted results).imp (fun hab => by
      simpa [filePathLe, Bool.not_eq_true'] using hab),
    parseFiles_nodes_sorted results,
    fun results' hperm hpaths hkeys =>
      parseFiles_deterministic results results' hperm hpaths hkeys⟩

/-- Witness for C8 at a concrete two-result arrival list. -/
theorem claim_C8_witness :
    parseFiles [⟨⟨2, "b.go", "main", "", 5⟩, [⟨2, 1, 0, false, "*ast.File", "", 0, 0, 1, 1, 1, 1, 0, 0⟩]⟩,
        ⟨⟨1, "a.go", "main", "", 4⟩, [⟨1, 1, 0, false, "*ast.File", "", 0, 0, 1, 1, 1, 1, 0, 0⟩]⟩] =
      parseFiles [⟨⟨1, "a.go", "main", "", 4⟩, [⟨1, 1, 0, false, "*ast.File", "", 0, 0, 1, 1, 1, 1, 0, 0⟩]⟩,
        ⟨⟨2, "b.go", "main", "", 5⟩, [⟨2, 1, 0, false, "*ast.File", "", 0, 0, 1, 1, 1, 1, 0, 0⟩]⟩] :=
  (claim_C8 _).2.2 _ (by decide) (by decide) (by decide)

/-- Effectful operations of `writeDatabase`, in execution order.
`cleanup` is `cleanupDuckDB`: removal of the destination DB file and
its engine side files. -/
inductive DBOp where
  | cleanup
  | openDB
  | openConn
  | setThreads
  | createSchema
  | beginTx
  | appendRows
  | writeMeta
  | commitTx
  | rollbackTx
deriving Repr, DecidableEq

/-- Fault injection for `writeDatabase`: each field is `some message`
when the corresponding engine operation fails.  `appendErr` covers the
whole `conn.Raw` appender closure (appender creation and per-row
appends), `metaErr` the `writeMeta` upserts, `commitErr` the COMMIT. -/
structure WriteFaults where
  openErr : Option String := none
  connErr : Option String := none
  threadsErr : Option String := none
  schemaErr : Option String := none
  beginErr : Option String := none
  appendErr : Option String := none
  metaErr : Option String := none
  commitErr : Option String := none
deriving Repr, DecidableEq

/-- Model of `writeDatabase` as the trace of engine operations it
performs together with the error it returns (`none` on success).
Mirrors the source control flow: cleanup, open, conn, threads pragma,
schema, BEGIN, appends, meta, COMMIT; every failure after BEGIN runs
the `rollback` helper (which executes ROLLBACK and returns the
original error unchanged).  No step removes the destination file after
`cleanup`. -/
def writeDatabaseSteps (f : WriteFaults) : List DBOp × Option String :=
  let tr := [DBOp.cleanup, DBOp.openDB]
  match f.openErr with
  | some e => (tr, some ("open duckdb: " ++ e))
  | none =>
  let tr := tr ++ [DBOp.openConn]
  match f.connErr with
  | some e => (tr, some ("open conn: " ++ e))
  | none =>
  let tr := tr ++ [DBOp.setThreads]
  match f.threadsErr with
  | some e => (tr, some ("set threads: " ++ e))
  | none =>
  let tr := tr ++ [DBOp.createSchema]
  match f.schemaErr with
  | some e => (tr, some e)
  | none =>
  let tr := tr ++ [DBOp.beginTx]
  match f.beginErr with
  | some e => (tr, some e)
  | none =>
  let tr := tr ++ [DBOp.appendRows]
  match f.appendErr with
  | some e => (tr ++ [DBOp.rollbackTx], some e)
  | none =>
  let tr := tr ++ [DBOp.writeMeta]
  match f.metaErr with
  | some e => (tr ++ [DBOp.rollbackTx], some e)
  | none =>
  let tr := tr ++ [DBOp.commitTx]
  match f.commitErr with
  | some e => (tr ++ [DBOp.rollbackTx], some e)
  | none => (tr, none)

/-- C4 counterexample: when the bulk append fails, `writeDatabase`
rolls back and surfaces the error, but the full operation trace
contains no removal of the destination file after the failure — the
only `cleanup` is the unconditional one before the DB is even opened,
so the partially initialized destination file is left behind. -/
theorem claim_C4_cex :
    writeDatabaseSteps { appendErr := some "boom" } =
      ([DBOp.cleanup, DBOp.openDB, DBOp.openConn, DBOp.setThreads, DBOp.createSchema,
        DBOp.beginTx, DBOp.appendRows, DBOp.rollbackTx], some "boom") ∧
    (writeDatabaseSteps { appendErr := some "boom" }).1.getLast? ≠ some DBOp.cleanup := by
  decide

/-- C4 amended: if any step between BEGIN and COMMIT fails (bulk
append, run_meta write, or commit), `writeDatabase` issues ROLLBACK as
its final operation and surfaces exactly that error to the caller; the
destination DB file is NOT removed in response to the failure — the
only removal in the trace is the unconditional `cleanupDuckDB` that
precedes opening the DB (stale files are instead deleted at the start
of the next write). -/
theorem claim_C4_amended (f : WriteFaults) (e : String)
    (hopen : f.openErr = none) (hconn : f.connErr = none)
    (hthreads : f.threadsErr = none) (hschema : f.schemaErr = none)
    (hbegin : f.beginErr = none)
    (hfail : f.appendErr = some e ∨
      (f.appendErr = none ∧ f.metaErr = some e) ∨
      (f.appendErr = none ∧ f.metaErr = none ∧ f.commitErr = some e)) :
    (writeDatabaseSteps f).2 = some e ∧
    (writeDatabaseSteps f).1.getLast? = some DBOp.rollbackTx ∧
    (writeDatabaseSteps f).1.count DBOp.cleanup = 1 ∧
    (writeDatabaseSteps f).1.head? = some DBOp.cleanup := by
  obtain ⟨o, c, t, s, b, ap, me, co⟩ := f
  simp only at hopen hconn hthreads hschema hbegin
  subst hopen hconn hthreads hschema hbegin
  rcases hfail with h | ⟨h1, h2⟩ | ⟨h1, h2, h3⟩
  · simp only at h; subst h
    simp [writeDatabaseSteps]
  · simp only at h1 h2; subst h1; subst h2
    simp [writeDatabaseSteps]
  · simp only at h1 h2 h3; subst h1; subst h2; subst h3
    simp [writeDatabaseSteps]

/-- Witness for C4 at a concrete fault assignment (commit failure). -/
theorem claim_C4_witness :
    (writeDatabaseSteps { commitErr := some "io error" }).2 = some "io error" ∧
    (writeDatabaseSteps { commitErr := some "io error" }).1.getLast? =
      some DBOp.rollbackTx ∧
    (writeDatabaseSteps { commitErr := some "io error" }).1.count DBOp.cleanup = 1 ∧
    (writeDatabaseSteps { commitErr := some "io error" }).1.head? = some DBOp.cleanup :=
  claim_C4_amended { commitErr := some "io error" } "io error"
    rfl rfl rfl rfl rfl (Or.inr (Or.inr ⟨rfl, rfl, rfl⟩))

/-- Run options (`Options` in the source).  Go `int` fields are
modelled as `Int` so the validation bounds are meaningful. -/
structure Options where
  RepoRoot : String
  Subdir : String
  MaxFiles : Int
  Workers : Int
  DuckDBPath : String
  Mode : String
  Reuse : Bool
  ForceRebuild : Bool
  QueryBench : Bool
  QueryWarmup : Int
  QueryIters : Int
  KeepOutputFiles : Bool
deriving Repr, DecidableEq

/-- `DefaultOptions` from the source, with `runtime.NumCPU()` passed in. -/
def DefaultOptions (numCPU : Int) : Options :=
  { RepoRoot := ".", Subdir := "", MaxFiles := 0, Workers := numCPU,
    DuckDBPath := "./.tmp/goastdb/ast.duckdb", Mode := "both", Reuse := true,
    ForceRebuild := false, QueryBench := true, QueryWarmup := 2, QueryIters := 8,
    KeepOutputFiles := true }

/-- Model of `normalizeAndValidateOptions`.  `filepath.Clean` on the
subdir is beyond the path model; only the trim and the `"."`-to-empty
normalization that follow it are modelled. -/
def normalizeAndValidateOptions (opts : Options) : Except String Options :=
  let repoRoot := if trimSpace opts.RepoRoot = "" then "." else opts.RepoRoot
  let duckPath := if trimSpace opts.DuckDBPath = "" then "./.tmp/goastdb/ast.duckdb"
    else opts.DuckDBPath
  let workers := if opts.Workers ≤ 0 then 1 else opts.Workers
  if opts.MaxFiles < 0 then .error "max-files must be >= 0"
  else if opts.QueryWarmup < 0 then .error "query-warmup must be >= 0"
  else if opts.QueryIters ≤ 0 then .error "query-iters must be > 0"
  else
    let mode0 := toLowerStr (trimSpace opts.Mode)
    let mode := if mode0 = "" then "both" else mode0
    if mode = "build" ∨ mode = "query" ∨ mode = "both" then
      let subdir0 := trimSpace opts.Subdir
      let subdir := if subdir0 = "." then "" else subdir0
      .ok ({ opts with RepoRoot := repoRoot, DuckDBPath := duckPath,
                       Workers := workers, Mode := mode, Subdir := subdir })
    else .error "invalid mode"

/-- The `Sync` section of a run result (`SyncStats` in the source;
elapsed-time fields are wall-clock measurements and are not part of
the model). -/
structure SyncStats where
  Action : String
  Reason : String
  Changed : Nat
  ParseErrors : Nat
  FilesCount : Nat
  NodesCount : Nat
deriving Repr, DecidableEq

/-- The run result (`Result` in the source; elapsed times and the
per-query benchmark timings are not part of the model). -/
structure ResultM where
  ScanFiles : Nat
  Subdir : String
  MaxFiles : Int
  Sync : SyncStats
  QueryWarmup : Int
  QueryIters : Int
deriving Repr, DecidableEq

/-- Abstract environment of one `Run` call: the sorted file metadata
the scanner produces for the tree, the worker pool's arrival order of
per-file parse results, the current on-disk DB (`none` when the file
is absent), and the wall clock used for `updated_unix`.  Repo-root
resolution, the subdir-escape check and the directory walk are
filesystem effects outside the model. -/
structure RunEnv where
  metas : List fileMeta
  parsed : List parseResult
  dbFile : Option DuckFile
  nowUnix : Int
deriving Repr, DecidableEq

/-- The DB contents `writeDatabase` leaves behind on success: the
appended rows and the three `run_meta` upserts written by `writeMeta`. -/
def writtenDB (files : List fileRow) (nodes : List nodeRow) (fingerprint : String)
    (nowUnix : Int) : DuckFile :=
  { filesTable := some files, nodesTable := some nodes,
    runMetaTable := some [("schema_version", schemaVersion),
      ("source_fingerprint", fingerprint), ("updated_unix", toString nowUnix)] }

/-- Model of `Run`: validate options, scan (the scanner's output is
`env.metas`; an empty scan is fatal), fingerprint, inspect the DB,
take the reuse or rebuild branch, optionally record the benchmark
bounds, and drop the DB when `KeepOutputFiles` is unset.  The happy
path of `writeDatabase` is `writtenDB`; the rebuild branch re-inspects
the freshly written DB for the reported counts, as the source does. -/
def runModel (opts0 : Options) (env : RunEnv) : Except String (ResultM × RunEnv) :=
  match normalizeAndValidateOptions opts0 with
  | .error e => .error e
  | .ok opts =>
  if env.metas.length = 0 then .error "no .go files found"
  else
  let fingerprint := sourceFingerprint env.metas
  let state := inspectDuckDB env.dbFile
  let rebuild := rebuildDecision opts.ForceRebuild opts.Reuse state fingerprint
  let reason := syncReason opts.ForceRebuild opts.Reuse state fingerprint
  let syncEnv :=
    if opts.Mode == "query" && !rebuild then
      ({ Action := "reuse", Reason := reason, Changed := 0, ParseErrors := 0,
         FilesCount := state.FilesCount, NodesCount := state.NodesCount }, env)
    else
      let parsed := parseFiles env.parsed
      let dbf := writtenDB parsed.1 parsed.2.1 fingerprint env.nowUnix
      let counts := inspectDuckDB (some dbf)
      ({ Action := "rebuild", Reason := reason, Changed := env.metas.length,
         ParseErrors := parsed.2.2, FilesCount := counts.FilesCount,
         NodesCount := counts.NodesCount }, { env with dbFile := some dbf })
  let bench := opts.QueryBench && (opts.Mode == "both" || opts.Mode == "query")
  let env2 := if opts.KeepOutputFiles then syncEnv.2 else { syncEnv.2 with dbFile := none }
  .ok ({ ScanFiles := env.metas.length, Subdir := opts.Subdir, MaxFiles := opts.MaxFiles,
         Sync := syncEnv.1, QueryWarmup := if bench then max 0 opts.QueryWarmup else 0,
         QueryIters := if bench then max 1 opts.QueryIters else 0 }, env2)

theorem inspect_writtenDB (files : List fileRow) (nodes : List nodeRow)
    (fp : String) (now : Int) :
    inspectDuckDB (some (writtenDB files nodes fp now)) =
      ⟨true, schemaVersion, fp, files.length, nodes.length⟩ := rfl

theorem normalize_ok_of_valid (opts : Options)
    (hmax : 0 ≤ opts.MaxFiles) (hwarm : 0 ≤ opts.QueryWarmup) (hiters : 0 < opts.QueryIters)
    (hm : opts.Mode = "build" ∨ opts.Mode = "query") :
    normalizeAndValidateOptions opts =
      .ok ({ opts with
             RepoRoot := if trimSpace opts.RepoRoot = "" then "." else opts.RepoRoot,
             DuckDBPath := if trimSpace opts.DuckDBPath = "" then "./.tmp/goastdb/ast.duckdb"
               else opts.DuckDBPath,
             Workers := if opts.Workers ≤ 0 then 1 else opts.Workers,
             Subdir := if trimSpace opts.Subdir = "." then "" else trimSpace opts.Subdir }) := by
  have h1 : ¬ opts.MaxFiles < 0 := by omega
  have h2 : ¬ opts.QueryWarmup < 0 := by omega
  have h3 : ¬ opts.QueryIters ≤ 0 := by omega
  rcases hm with h | h <;>
    simp only [normalizeAndValidateOptions, h, h1, h2, h3, if_false, ite_false,
      show toLowerStr (trimSpace "build") = "build" from by decide,
      show toLowerStr (trimSpace "query") = "query" from by decide] <;>
    simp [h]

/-- C1 counterexample: on a one-file tree with no pre-existing DB,
running the model of `Run` twice with `mode="build"` yields
`Sync.Action="rebuild"` both times — in build mode the source never
takes the reuse branch (`if mode == "query" && !rebuild`), so the
second action is not `"reuse"` as the claim requires. -/
theorem claim_C1_cex :
    ((runModel ⟨".", "", 0, 1, "db", "build", true, false, false, 2, 8, true⟩
        ⟨[⟨"main.go", 30, 100⟩], [⟨⟨1, "main.go", "main", "", 30⟩,
          [⟨1, 1, 0, false, "*ast.File", "", 0, 0, 1, 1, 1, 1, 0, 0⟩]⟩], none, 1000⟩).toOption.map
      (fun p : ResultM × RunEnv => p.1.Sync.Action) = some "rebuild") ∧
    ((do
        let p1 ← runModel ⟨".", "", 0, 1, "db", "build", true, false, false, 2, 8, true⟩
          ⟨[⟨"main.go", 30, 100⟩], [⟨⟨1, "main.go", "main", "", 30⟩,
            [⟨1, 1, 0, false, "*ast.File", "", 0, 0, 1, 1, 1, 1, 0, 0⟩]⟩], none, 1000⟩
        runModel ⟨".", "", 0, 1, "db", "build", true, false, false, 2, 8, true⟩
          p1.2).toOption.map
      (fun p : ResultM × RunEnv => p.1.Sync.Action) = some "rebuild") ∧
    ("rebuild" : String) ≠ "reuse" := by
  refine ⟨by decide, by decide, by decide⟩

/-- C1 amended: for every source tree with at least one .go file and an
unchanged environment between runs (reuse on, force off, output kept),
calling Run with `mode="build"` and then with `mode="query"` — as the
source's own build-and-reuse test does — yields `Sync.Action="rebuild"`
on the first run and `Sync.Action="reuse"` with the same files_count
and nodes_count on the second; a second `mode="build"` run would
rebuild again. -/
theorem claim_C1_amended (opts : Options) (env : RunEnv)
    (hmode : opts.Mode = "build") (hreuse : opts.Reuse = true)
    (hforce : opts.ForceRebuild = false) (hkeep : opts.KeepOutputFiles = true)
    (hmax : 0 ≤ opts.MaxFiles) (hwarm : 0 ≤ opts.QueryWarmup) (hiters : 0 < opts.QueryIters)
    (hmetas : env.metas ≠ []) :
    ((runModel opts env).toOption.map
      (fun p : ResultM × RunEnv => p.1.Sync.Action) = some "rebuild") ∧
    ((do
        let p1 ← runModel opts env
        runModel { opts with Mode := "query" } p1.2).toOption.map
      (fun p : ResultM × RunEnv => p.1.Sync.Action) = some "reuse") ∧
    ((do
        let p1 ← runModel opts env
        runModel { opts with Mode := "query" } p1.2).toOption.map
      (fun p : ResultM × RunEnv => (p.1.Sync.FilesCount, p.1.Sync.NodesCount)) =
      (runModel opts env).toOption.map
        (fun p : ResultM × RunEnv => (p.1.Sync.FilesCount, p.1.Sync.NodesCount))) := by
  obtain ⟨rr, sd, mf, wk, dp, md, ru, fr, qb, qw, qi, ko⟩ := opts
  simp only at hmode hreuse hforce hkeep hmax hwarm hiters
  subst hmode; subst hreuse; subst hforce; subst hkeep
  obtain ⟨metas, parsed, dbf0, now⟩ := env
  simp only at hmetas
  have hlen : ¬ (metas.length = 0) := by simpa using hmetas
  have hn1 := normalize_ok_of_valid ⟨rr, sd, mf, wk, dp, "build", true, false, qb, qw, qi, true⟩
    hmax hwarm hiters (Or.inl rfl)
  have hn2 := normalize_ok_of_valid ⟨rr, sd, mf, wk, dp, "query", true, false, qb, qw, qi, true⟩
    hmax hwarm hiters (Or.inr rfl)
  refine ⟨?_, ?_, ?_⟩ <;>
    simp [runModel, hn1, hn2, inspect_writtenDB, hlen, rebuildDecision, schemaVersion,
      Except.toOption, Except.bind, bind,
      show (("build" : String) == "query") = false from by decide,
      show (("build" : String) == "both") = false from by decide,
      show (("query" : String) == "query") = true from by decide,
      show (("query" : String) == "both") = false from by decide]

/-- Witness for C1 at a concrete one-file environment. -/
theorem claim_C1_witness :
    (do
        let p1 ← runModel ⟨".", "", 0, 1, "db2", "build", true, false, false, 2, 8, true⟩
          ⟨[⟨"a.go", 10, 5⟩], [⟨⟨1, "a.go", "main", "", 10⟩, []⟩], none, 7⟩
        runModel { (⟨".", "", 0, 1, "db2", "build", true, false, false, 2, 8, true⟩ : Options)
          with Mode := "query" } p1.2).toOption.map
      (fun p : ResultM × RunEnv => p.1.Sync.Action) = some "reuse" :=
  (claim_C1_amended ⟨".", "", 0, 1, "db2", "build", true, false, false, 2, 8, true⟩
    ⟨[⟨"a.go", 10, 5⟩], [⟨⟨1, "a.go", "main", "", 10⟩, []⟩], none, 7⟩
    rfl rfl rfl rfl (by decide) (by decide) (by decide) (by decide)).2.1

/-- A governance rule (`Rule` in package governance). -/
structure Rule where
  ID : String
  Category : String
  Severity : String
  Description : String
  QuerySQL : String
  Enabled : Bool
deriving Repr, DecidableEq

/-- A DuckDB driver value as the governance runner sees it after
`rows.Scan`: NULL, text, a byte slice (carried here as its decoded
string), or a 64-bit integer.  Other driver types are outside the
model. -/
inductive Value where
  | vNull
  | vStr (s : String)
  | vBytes (s : String)
  | vInt (i : Int)
deriving Repr, DecidableEq

/-- `normalize` from the source: byte slices become strings, everything
else is passed through. -/
def normalizeValue : Value → Value
  | .vBytes s => .vStr s
  | v => v

/-- `asString` from the source (`fmt.Sprint` on an `int64` prints its
decimal form). -/
def asString : Value → String
  | .vNull => ""
  | .vStr s => s
  | .vBytes s => s
  | .vInt i => toString i

/-- `asInt` from the source: `strconv.Atoi` of the trimmed string with
the error discarded is modelled by `String.toInt?` with default 0. -/
def asInt : Value → Int
  | .vNull => 0
  | .vInt i => i
  | .vStr s => ((trimSpace s).toInt?).getD 0
  | .vBytes _ => 0

/-- A projected violation (`Violation` in the source).  The Go
`RawValues` map is carried as the (column, normalized value) list the
row loop produced; lookups take the LAST binding of a column, as Go
map assignment does. -/
structure Violation where
  RuleID : String
  Category : String
  Severity : String
  FilePath : String
  Symbol : String
  Detail : String
  Line : Int
  RawValues : List (String × Value)
deriving Repr, DecidableEq

/-- Lookup in the raw-values map: the last binding wins; a missing
column is Go's `nil` map read. -/
def rawGet (raw : List (String × Value)) (c : String) : Value :=
  match raw.reverse.find? (fun kv => kv.1 = c) with
  | some kv => kv.2
  | none => .vNull

/-- The body of the per-row loop of `Runner.Run`: normalize the
scanned values and project the recognized columns. -/
def rowToViolation (rule : Rule) (row : List (String × Value)) : Violation :=
  let raw := row.map (fun kv => (kv.1, normalizeValue kv.2))
  { RuleID := rule.ID, Category := rule.Category, Severity := rule.Severity,
    FilePath := asString (rawGet raw "file_path"),
    Symbol := asString (rawGet raw "symbol"),
    Detail := asString (rawGet raw "detail"),
    Line := asInt (rawGet raw "line"),
    RawValues := raw }

/-- Abstract DB the governance runner talks to: the stored rules (with
the defaults already upserted by `EnsureDefaultRules`) and the
engine's response to a rule's SQL — result rows as ordered
(column, value) lists, or the error that `QueryContext`, `Columns`,
`Scan` or `rows.Err` reports.  Opening the DB file and reading the
rules table are modelled as infallible. -/
structure GovDB where
  rules : List Rule
  query : String → Except String (List (List (String × Value)))

/-- Ordering of the `ORDER BY rule_id` clause of `ListRules` (binary
TEXT order: `a` before `b` when `b`'s ID does not compare strictly
below `a`'s). -/
def ruleIdLe (a b : Rule) : Prop := strLt b.ID a.ID = false

instance : DecidableRel ruleIdLe :=
  fun _ _ => inferInstanceAs (Decidable (_ = false))

instance : IsTotal Rule ruleIdLe :=
  ⟨fun a b => by
    by_cases h : strLt b.ID a.ID = true
    · exact Or.inr (strLt_asymm _ _ h)
    · exact Or.inl (by simpa using h)⟩

instance : IsTrans Rule ruleIdLe :=
  ⟨fun a b c hab hbc => by
    unfold ruleIdLe at *
    by_cases hca : strLt c.ID a.ID = true
    · by_cases hcb : strLt c.ID b.ID = true
      · rw [hcb] at hbc; exact absurd hbc (by simp)
      · rcases strLt_total b.ID c.ID (fun he => by
          rw [he] at hab; rw [hab] at hca; simp at hca) with h | h
        · have htr := strLt_trans _ _ _ h hca
          rw [htr] at hab; exact absurd hab (by simp)
        · exact absurd h hcb
    · simpa using hca⟩

/-- `ListRules` from the source: the stored rules sorted by `rule_id`. -/
def ListRules (db : GovDB) : List Rule :=
  db.rules.insertionSort ruleIdLe

/-- `filterRules` from the source: an empty selection keeps every rule;
otherwise keep, in stored order, exactly the rules whose ID is in the
selection set. -/
def filterRules (rules : List Rule) (ids : List String) : List Rule :=
  if ids.length = 0 then rules
  else rules.filter (fun r => ids.contains r.ID)

/-- Selection passed to `Runner.Run` (`RunOptions` in the source). -/
structure RunOptions where
  RuleIDs : List String
deriving Repr, DecidableEq

/-- The sequential rule loop of `Runner.Run`: skip disabled rules, run
each enabled rule's SQL, abort with an error naming the rule ID on
failure, and accumulate the projected violations otherwise. -/
def runRulesLoop (db : GovDB) : List Rule → List Violation → Except String (List Violation)
  | [], out => .ok out
  | rule :: rest, out =>
    if !rule.Enabled then runRulesLoop db rest out
    else
      match db.query rule.QuerySQL with
      | .error e => .error ("rule " ++ rule.ID ++ ": " ++ e)
      | .ok rows => runRulesLoop db rest (out ++ rows.map (rowToViolation rule))

/-- Model of `Runner.Run`: list the rules, filter by the requested IDs,
and execute the loop starting from no violations. -/
def RunnerRun (db : GovDB) (opts : RunOptions) : Except String (List Violation) :=
  runRulesLoop db (filterRules (ListRules db) opts.RuleIDs) []

theorem runRulesLoop_filter_enabled (db : GovDB) (rules : List Rule) :
    ∀ out, runRulesLoop db rules out =
      runRulesLoop db (rules.filter (fun r => r.Enabled)) out := by
  induction rules with
  | nil => intro out; rfl
  | cons r rest ih =>
    intro out
    by_cases h : r.Enabled
    · rw [runRulesLoop, if_neg (by simp [h])]
      rw [List.filter_cons_of_pos (by simp [h]), runRulesLoop, if_neg (by simp [h])]
      match db.query r.QuerySQL with
      | .error e => rfl
      | .ok rows => exact ih _
    · rw [runRulesLoop, if_pos (by simp [h]),
        List.filter_cons_of_neg (by simp [h])]
      exact ih out

theorem runRulesLoop_error_at_first_failure (db : GovDB) (bad : Rule) (e : String)
    (hbadE : bad.Enabled = true) (hbad : db.query bad.QuerySQL = .error e) :
    ∀ (pre : List Rule) (post : List Rule) (out : List Violation),
      (∀ r ∈ pre, r.Enabled = true ∧ ∃ rows, db.query r.QuerySQL = .ok rows) →
      runRulesLoop db (pre ++ bad :: post) out =
        .error ("rule " ++ bad.ID ++ ": " ++ e) := by
  intro pre
  induction pre with
  | nil =>
    intro post out _
    rw [List.nil_append, runRulesLoop, if_neg (by simp [hbadE]), hbad]
  | cons p ps ih =>
    intro post out hpre
    obtain ⟨hpE, rows, hq⟩ := hpre p (List.mem_cons_self p ps)
    rw [List.cons_append, runRulesLoop, if_neg (by simp [hpE]), hq]
    exact ih post _ (fun r hr => hpre r (List.mem_cons_of_mem p hr))

/-- C9: the governance runner executes the selected enabled rules
sequentially, and if a rule's SQL query fails (every selected enabled
rule before it having succeeded), Run returns an error that names that
rule's ID and returns no violations at all — also none accumulated
from the earlier successful rules. -/
theorem claim_C9 (db : GovDB) (opts : RunOptions) (pre post : List Rule) (bad : Rule)
    (e : String)
    (hsel : (filterRules (ListRules db) opts.RuleIDs).filter (fun r => r.Enabled) =
      pre ++ bad :: post)
    (hpre : ∀ r ∈ pre, ∃ rows, db.query r.QuerySQL = .ok rows)
    (hbad : db.query bad.QuerySQL = .error e) :
    RunnerRun db opts = .error ("rule " ++ bad.ID ++ ": " ++ e) ∧
    ∀ vs : List Violation, RunnerRun db opts ≠ .ok vs := by
  have hbadE : bad.Enabled = true := by
    have hmem : bad ∈ (filterRules (ListRules db) opts.RuleIDs).filter
        (fun r => r.Enabled) := by
      rw [hsel]; exact List.mem_append_right pre (List.mem_cons_self bad post)
    simpa using (List.mem_filter.mp hmem).2
  have hrun : RunnerRun db opts = .error ("rule " ++ bad.ID ++ ": " ++ e) := by
    rw [RunnerRun, runRulesLoop_filter_enabled, hsel]
    refine runRulesLoop_error_at_first_failure db bad e hbadE hbad pre post [] ?_
    intro r hr
    have hmem : r ∈ (filterRules (ListRules db) opts.RuleIDs).filter
        (fun r => r.Enabled) := by
      rw [hsel]; exact List.mem_append_left _ hr
    exact ⟨by simpa using (List.mem_filter.mp hmem).2, hpre r hr⟩
  refine ⟨hrun, ?_⟩
  intro vs h
  rw [hrun] at h
  exact Except.noConfusion h

/-- Witness for C9: a DB with two enabled rules where the first
succeeds with one row and the second fails; the run aborts naming the
second rule and drops the first rule's violation. -/
theorem claim_C9_witness :
    RunnerRun
      ⟨[⟨"A", "cat", "warning", "first", "QA", true⟩,
        ⟨"B", "cat", "error", "second", "QB", true⟩],
       fun s => if s = "QA" then .ok [[("file_path", .vStr "f.go")]]
         else .error "syntax error"⟩
      ⟨[]⟩ = .error ("rule " ++ "B" ++ ": " ++ "syntax error") :=
  (claim_C9
    ⟨[⟨"A", "cat", "warning", "first", "QA", true⟩,
      ⟨"B", "cat", "error", "second", "QB", true⟩],
     fun s => if s = "QA" then .ok [[("file_path", .vStr "f.go")]]
       else .error "syntax error"⟩
    ⟨[]⟩ [⟨"A", "cat", "warning", "first", "QA", true⟩] []
    ⟨"B", "cat", "error", "second", "QB", true⟩ "syntax error"
    (by decide)
    (by
      intro r hr
      rw [List.mem_singleton] at hr
      subst hr
      exact ⟨[[("file_path", .vStr "f.go")]], rfl⟩)
    rfl).1

/-- C10: for every non-empty selection list, IDs that match no stored
rule are silently ignored — the selection is exactly the stored-order
filter of the sorted rule list by ID membership, so it is sorted by
rule_id and depends only on which IDs appear in the selection, not on
their order; if no ID matches any stored rule, Run returns an empty
violation list and no error. -/
theorem claim_C10 (db : GovDB) (ids : List String) (hne : ids ≠ []) :
    (filterRules (ListRules db) ids =
      (ListRules db).filter (fun r => ids.contains r.ID)) ∧
    (filterRules (ListRules db) ids).Pairwise ruleIdLe ∧
    ((∀ r ∈ db.rules, r.ID ∉ ids) → RunnerRun db ⟨ids⟩ = .ok []) ∧
    (∀ ids' : List String, (∀ s, s ∈ ids ↔ s ∈ ids') →
      filterRules (ListRules db) ids = filterRules (ListRules db) ids') := by
  have hlen : ¬ (ids.length = 0) := by simpa using hne
  have hfil : filterRules (ListRules db) ids =
      (ListRules db).filter (fun r => ids.contains r.ID) := by
    rw [filterRules, if_neg hlen]
  refine ⟨hfil, ?_, ?_, ?_⟩
  · rw [hfil]
    exact (List.sorted_insertionSort ruleIdLe db.rules).sublist
      (List.filter_sublist (ListRules db))
  · intro hnomatch
    have hempty : filterRules (ListRules db) ids = [] := by
      rw [hfil, List.filter_eq_nil_iff]
      intro r hr
      have hmem : r ∈ db.rules :=
        (List.perm_insertionSort ruleIdLe db.rules).mem_iff.mp hr
      simpa using fun hc => hnomatch r hmem (by simpa using hc)
    rw [RunnerRun, hempty]
    rfl
  · intro ids' hiff
    have hne' : ids' ≠ [] := by
      intro h
      subst h
      rcases ids with _ | ⟨x, xs⟩
      · exact hne rfl
      · simpa using (hiff x).mp (List.mem_cons_self x xs)
    have hlen' : ¬ (ids'.length = 0) := by simpa using hne'
    rw [filterRules, if_neg hlen, filterRules, if_neg hlen']
    refine List.filter_congr ?_
    intro r hr
    have h1 : (ids.contains r.ID) = (ids'.contains r.ID) := by
      show List.elem r.ID ids = List.elem r.ID ids'
      by_cases h : r.ID ∈ ids
      · rw [List.elem_eq_true_of_mem h, List.elem_eq_true_of_mem ((hiff _).mp h)]
      · have h' : r.ID ∉ ids' := fun hc => h ((hiff _).mpr hc)
        have e1 : List.elem r.ID ids = false := by
          by_contra hc
          exact h (List.mem_of_elem_eq_true (by simpa using hc))
        have e2 : List.elem r.ID ids' = false := by
          by_contra hc
          exact h' (List.mem_of_elem_eq_true (by simpa using hc))
        rw [e1, e2]
    rw [h1]

/-- Witness for C10: a selection naming only an unknown rule ID yields
an empty, error-free run on a DB with one stored rule. -/
theorem claim_C10_witness :
    RunnerRun
      ⟨[⟨"A", "cat", "warning", "first", "QA", true⟩],
       fun _ => .error "unused"⟩
      ⟨["NOPE"]⟩ = .ok [] :=
  (claim_C10
    ⟨[⟨"A", "cat", "warning", "first", "QA", true⟩], fun _ => .error "unused"⟩
    ["NOPE"] (by decide)).2.2.1
    (by
      intro r hr
      rw [List.mem_singleton] at hr
      subst hr
      decide)

end Goastdb
